import Mathlib

set_option maxHeartbeats 1000000
set_option maxRecDepth 8000

namespace Gobang

/-- A board is modelled as a total function from integer coordinates to cell
values (0 = empty, 1 and 2 = the two players); the C++ code stores it as a
square `vector<vector<int>>` of side `board_size` and only ever reads
positions it has bounds-checked first, so the in-bounds cells determine all
behaviour of the embedded operations. -/
abbrev Board := Int → Int → Int

/-- Copy-and-set of one cell: the embedding of the recurring C++ idiom
`new_board = board; new_board[x][y] = color;`. -/
def updateCell (b : Board) (x y color : Int) : Board :=
  fun i j => if i = x ∧ j = y then color else b i j

/-- The weight record (`struct Weights`, gobang_core.h). The C++ fields are
`float`; they are modelled as rationals so that the arithmetic in the spec
claims is exact. -/
structure Weights where
  FIVE : ℚ
  FOUR : ℚ
  BLOCKED_FOUR : ℚ
  THREE : ℚ
  BLOCKED_THREE : ℚ
  TWO : ℚ
  BLOCKED_TWO : ℚ
  ONE : ℚ
deriving DecidableEq

/-- The value-initialized `Weights{}` that `mcts_optimize` passes to
`evaluate_move`: every `float` field is zero. -/
def Weights.zero : Weights := ⟨0, 0, 0, 0, 0, 0, 0, 0⟩

/-- Result record of `check_game_end` (`struct GameEndResult`, gobang_core.h). -/
structure GameEndResult where
  is_end : Bool
  winner : Int
  win_line_size : Int
  win_line : List (Int × Int)
deriving DecidableEq

/-- Embedding of `GobangCore::validate_move` (gobang_core.cpp lines 12-31):
bounds check, then occupancy check, then player check, each returning the
corresponding message. -/
def validate_move (b : Board) (x y current_player n : Int) : Bool × String :=
  if x < 0 ∨ n ≤ x ∨ y < 0 ∨ n ≤ y then (false, "invalid_position")
  else if b x y ≠ 0 then (false, "occupied")
  else if current_player ≠ 1 ∧ current_player ≠ 2 then (false, "invalid_player")
  else (true, "success")

/-- Embedding of `GobangCore::place_piece` (lines 34-43): copy the board and
set the cell, no validation.  The `board_size` argument is taken and ignored
exactly as in the source. -/
def place_piece (b : Board) (x y color n : Int) : Board :=
  updateCell b x y color

/-- The list of integers `lo, lo+1, …, hi-1` (empty when `hi ≤ lo`): the
index sequence of a C++ `for` loop running from `lo` while `< hi`. -/
def intRange (lo hi : Int) : List Int :=
  (List.range (hi - lo).toNat).map (fun k : Nat => lo + (k : Int))

/-- All loop index pairs of two nested `for` loops, outer `r0 ≤ i < r1`,
inner `c0 ≤ j < c1`, in execution order. -/
def rowMajor (r0 r1 c0 c1 : Int) : List (Int × Int) :=
  (intRange r0 r1).flatMap (fun i => (intRange c0 c1).map (fun j => (i, j)))

/-- The inner 5-cell window check shared by the four scan passes of
`check_game_end`: the window starting at `(i, j)` with step `(dx, dy)` wins
iff its first cell is nonzero and all five cells equal the first. -/
def winAt (b : Board) (i j dx dy : Int) : Bool :=
  decide (b i j ≠ 0) &&
    (intRange 0 5).all (fun k => b (i + k * dx) (j + k * dy) == b i j)

/-- The five positions of the window starting at `(i, j)` with step
`(dx, dy)`, in the order the source pushes them into `win_line`. -/
def cells5 (i j dx dy : Int) : List (Int × Int) :=
  (intRange 0 5).map (fun k => (i + k * dx, j + k * dy))

/-- Horizontal pass index pairs (lines 54-75): `0 ≤ i < n`, `0 ≤ j ≤ n-5`. -/
def hIdx (n : Int) : List (Int × Int) := rowMajor 0 n 0 (n - 4)

/-- Vertical pass index pairs (lines 78-99): outer loop on the column `j`,
inner on the start row `i ≤ n-5`; the pair is still `(row, col)`. -/
def vIdx (n : Int) : List (Int × Int) :=
  (intRange 0 n).flatMap (fun j => (intRange 0 (n - 4)).map (fun i => (i, j)))

/-- Down-right diagonal pass index pairs (lines 102-123). -/
def d1Idx (n : Int) : List (Int × Int) := rowMajor 0 (n - 4) 0 (n - 4)

/-- Down-left diagonal pass index pairs (lines 126-147): the column loop is
`for (int j = win_len - 1; j < board_size; ++j)`, i.e. `4 ≤ j < n`
ascending. -/
def d2Idx (n : Int) : List (Int × Int) := rowMajor 0 (n - 4) 4 n

/-- One scan pass: the first window of the pass (in loop order) whose five
cells are all equal and nonzero, if any — the early `return` of the source. -/
def scanPass (b : Board) (l : List (Int × Int)) (dx dy : Int) :
    Option (Int × Int) :=
  l.find? (fun p => winAt b p.1 p.2 dx dy)

/-- The `GameEndResult` built on a winning window. -/
def winResult (b : Board) (p : Int × Int) (dx dy : Int) : GameEndResult :=
  ⟨true, b p.1 p.2, 5, cells5 p.1 p.2 dx dy⟩

/-- The full-board test of lines 150-159: every cell of the `n × n` grid is
nonzero (the `break`s are mere early exits of this conjunction). -/
def isFullB (b : Board) (n : Int) : Bool :=
  (intRange 0 n).all (fun i => (intRange 0 n).all (fun j => !(b i j == 0)))

/-- Embedding of `GobangCore::check_game_end` (lines 46-166): four window
scans in order (horizontal, vertical, down-right, down-left), each returning
on its first winning window; otherwise Draw when the board is full, else an
unfinished result. -/
def check_game_end (b : Board) (n : Int) : GameEndResult :=
  match scanPass b (hIdx n) 0 1 with
  | some p => winResult b p 0 1
  | none =>
    match scanPass b (vIdx n) 1 0 with
    | some p => winResult b p 1 0
    | none =>
      match scanPass b (d1Idx n) 1 1 with
      | some p => winResult b p 1 1
      | none =>
        match scanPass b (d2Idx n) 1 (-1) with
        | some p => winResult b p 1 (-1)
        | none =>
          if isFullB b n then ⟨true, 0, 0, []⟩ else ⟨false, 0, 0, []⟩

/-- Fuel-indexed embedding of the `while` loop in `GobangCore::check_line`
(lines 250-264): counts consecutive `color` cells from `(x, y)` along
`(dx, dy)` while staying in bounds; one fuel unit per iteration. -/
def check_lineF (b : Board) (dx dy color n : Int) : Nat → Int → Int → Nat
  | 0, _, _ => 0
  | fuel + 1, x, y =>
    if 0 ≤ x ∧ x < n ∧ 0 ≤ y ∧ y < n ∧ b x y = color then
      check_lineF b dx dy color n fuel (x + dx) (y + dy) + 1
    else 0

/-- Embedding of `GobangCore::check_line`.  On the unit directions the
program uses, a
counted cell must stay inside `[0, n)`, so the loop runs at most `n.toNat`
iterations and fuel `n.toNat + 1` is never exhausted. -/
def check_line (b : Board) (x y dx dy color n : Int) : Nat :=
  check_lineF b dx dy color n (n.toNat + 1) x y

/-- The loop guard of `check_line` seen from the start cell: step `t` is
taken iff the cell `t` steps along the direction is in-bounds and holds
`color`. -/
def lineCond (b : Board) (n color x y dx dy : Int) (t : Nat) : Bool :=
  decide (0 ≤ x + (t : Int) * dx ∧ x + (t : Int) * dx < n ∧
    0 ≤ y + (t : Int) * dy ∧ y + (t : Int) * dy < n ∧
    b (x + (t : Int) * dx) (y + (t : Int) * dy) = color)

/-- The per-direction body of the loop in `GobangCore::get_pattern_score`
(lines 278-308): forward/backward runs, the blocked test one step beyond
each end, and the weight selected by the if-chain on `total`. -/
def patternAxis (b : Board) (x y color opponent : Int) (w : Weights)
    (n dx dy : Int) : ℚ :=
  let forward : Int := (check_line b (x + dx) (y + dy) dx dy color n : Int)
  let backward : Int := (check_line b (x - dx) (y - dy) (-dx) (-dy) color n : Int)
  let total : Int := forward + backward + 1
  let fx := x + (forward + 1) * dx
  let fy := y + (forward + 1) * dy
  let bx := x - (backward + 1) * dx
  let bv := y - (backward + 1) * dy
  let blocked : Prop :=
    (0 ≤ fx ∧ fx < n ∧ 0 ≤ fy ∧ fy < n ∧ b fx fy = opponent) ∨
    (0 ≤ bx ∧ bx < n ∧ 0 ≤ bv ∧ bv < n ∧ b bx bv = opponent)
  if 5 ≤ total then w.FIVE
  else if total = 4 then (if blocked then w.BLOCKED_FOUR else w.FOUR)
  else if total = 3 then (if blocked then w.BLOCKED_THREE else w.THREE)
  else if total = 2 then (if blocked then w.BLOCKED_TWO else w.TWO)
  else if total = 1 then w.ONE
  else 0

/-- The four directions of `get_pattern_score`, in source order. -/
def dirList : List (Int × Int) := [(0, 1), (1, 0), (1, 1), (1, -1)]

/-- Embedding of `GobangCore::get_pattern_score` (lines 266-311): the sum of
the four per-direction weights, accumulated in direction order. -/
def get_pattern_score (b : Board) (x y color : Int) (w : Weights) (n : Int) : ℚ :=
  let opponent : Int := if color = 1 then 2 else 1
  (dirList.map (fun d => patternAxis b x y color opponent w n d.1 d.2)).sum

/-- Embedding of `GobangCore::evaluate_move` (lines 169-180): place `color`
at `(x, y)` on a private copy and score the pattern there. -/
def evaluate_move (b : Board) (x y color : Int) (w : Weights) (n : Int) : ℚ :=
  get_pattern_score (updateCell b x y color) x y color w n

/-- Row-major list of all cells of the `n × n` board. -/
def cellIdx (n : Int) : List (Int × Int) := rowMajor 0 n 0 n

/-- The predicate tested by the loop body of `find_winning_move` at `(i, j)`:
the cell is empty and tentatively placing `color` there ends the game with
`color` as the winner. -/
def winsAt (b : Board) (color n : Int) (p : Int × Int) : Bool :=
  (b p.1 p.2 == 0) &&
    (let r := check_game_end (updateCell b p.1 p.2 color) n
     r.is_end && (r.winner == color))

/-- Embedding of `GobangCore::find_winning_move` (lines 183-202): scan all
cells in row-major order and return the first empty cell whose tentative
placement wins for `color`; `(-1, -1)` when none does. -/
def find_winning_move (b : Board) (color n : Int) : Int × Int :=
  match (cellIdx n).find? (winsAt b color n) with
  | some p => p
  | none => (-1, -1)

/-- The neighbour offsets of `mcts_optimize` (lines 220-221), pairing
`dx[] = {-1,0,1,-1,1,-1,0,1}` with `dy[] = {-1,-1,-1,0,0,1,1,1}`. -/
def neighborOffsets : List (Int × Int) :=
  [(-1, -1), (0, -1), (1, -1), (-1, 0), (1, 0), (-1, 1), (0, 1), (1, 1)]

/-- The candidate list of `mcts_optimize` (lines 217-228): the initial move
first, then each of the 8 neighbours that is in-bounds and empty. -/
def mcts_candidates (b : Board) (init : Int × Int) (n : Int) :
    List (Int × Int) :=
  init :: neighborOffsets.filterMap (fun d =>
    let x := init.1 + d.1
    let y := init.2 + d.2
    if 0 ≤ x ∧ x < n ∧ 0 ≤ y ∧ y < n ∧ b x y = 0 then some (x, y) else none)

/-- The score a candidate receives in `mcts_optimize` (lines 231-239): the
`iterations`-fold sum of `evaluate_move` on the board with the move already
placed, divided by `iterations`. -/
def mcts_meanScore (b : Board) (m : Int × Int) (color : Int) (w : Weights)
    (iterations n : Int) : ℚ :=
  (((List.range iterations.toNat).map (fun _ =>
      evaluate_move (updateCell b m.1 m.2 color) m.1 m.2 color w n)).sum) /
    (iterations : ℚ)

/-- The body of `GobangCore::mcts_optimize` (lines 205-247), with the weight
record it passes to `evaluate_move` — the literal `Weights{}` of line 237 —
factored out as the parameter `w`: fold over the candidates keeping the best
score, starting from `best_score = -1e9`, `best_move = init`, and updating
only on strict improvement. -/
def mcts_core (b : Board) (init : Int × Int) (color : Int) (w : Weights)
    (iterations n : Int) : Int × Int :=
  ((mcts_candidates b init n).foldl
    (fun best m =>
      if best.1 < mcts_meanScore b m color w iterations n then
        (mcts_meanScore b m color w iterations n, m)
      else best)
    (-(1000000000 : ℚ), init)).2

/-- Embedding of `GobangCore::mcts_optimize`: `mcts_core` at the all-zero
weight record `Weights{}`; the `depth` argument is taken and never used,
exactly as in the source. -/
def mcts_optimize (b : Board) (init : Int × Int) (color depth iterations n : Int) :
    Int × Int :=
  mcts_core b init color Weights.zero iterations n

/-- Strict row-major (lexicographic) order on positions. -/
def lexLt (p q : Int × Int) : Prop :=
  p.1 < q.1 ∨ (p.1 = q.1 ∧ p.2 < q.2)

instance (p q : Int × Int) : Decidable (lexLt p q) := by
  unfold lexLt; infer_instance

/-- A five-in-a-row exists on the board: some fully in-bounds 5-cell window
along one of the four axes has all cells equal and nonzero. -/
def hasFive (b : Board) (n : Int) : Prop :=
  ∃ i j dx dy : Int,
    ((dx, dy) = ((0 : Int), (1 : Int)) ∨ (dx, dy) = (1, 0) ∨
      (dx, dy) = (1, 1) ∨ (dx, dy) = (1, -1)) ∧
    (∀ k : Int, 0 ≤ k → k < 5 →
      0 ≤ i + k * dx ∧ i + k * dx < n ∧ 0 ≤ j + k * dy ∧ j + k * dy < n) ∧
    b i j ≠ 0 ∧
    (∀ k : Int, 0 ≤ k → k < 5 → b (i + k * dx) (j + k * dy) = b i j)

/-- Every cell of the `n × n` board is occupied. -/
def boardFull (b : Board) (n : Int) : Prop :=
  ∀ i j : Int, 0 ≤ i → i < n → 0 ≤ j → j < n → b i j ≠ 0

/-- Specification-side count of §4.4: the number of consecutive `c`-colored
cells strictly beyond `(x, y)` along direction `(dx, dy)` — the length of
the maximal prefix of the cells `(x + (t+1)·dx, y + (t+1)·dy)`,
`t = 0, 1, …`, that are in-bounds and hold `c`.  Every counted cell is
in-bounds, so the count never exceeds the board side and scanning
`n.toNat + 1` steps is exhaustive. -/
def specBeyond (b : Board) (n x y dx dy c : Int) : Nat :=
  ((List.range (n.toNat + 1)).takeWhile (fun t : Nat =>
    decide (0 ≤ x + ((t : Int) + 1) * dx ∧ x + ((t : Int) + 1) * dx < n ∧
            0 ≤ y + ((t : Int) + 1) * dy ∧ y + ((t : Int) + 1) * dy < n ∧
            b (x + ((t : Int) + 1) * dx) (y + ((t : Int) + 1) * dy) = c))).length

/-- Specification-side per-axis weight of §4.4: `forward` and `backward` are
the consecutive counts strictly beyond the position, `total` their sum plus
one, `blocked` holds iff the single cell one step beyond either end is
in-bounds and holds the opposing color, and the weight is selected by the
documented `(total, blocked)` mapping. -/
def specAxisWeight (b : Board) (n x y c : Int) (w : Weights) (dx dy : Int) : ℚ :=
  let f : Int := (specBeyond b n x y dx dy c : Int)
  let bk : Int := (specBeyond b n x y (-dx) (-dy) c : Int)
  let total : Int := f + bk + 1
  let fx := x + (f + 1) * dx
  let fy := y + (f + 1) * dy
  let bx := x - (bk + 1) * dx
  let bv := y - (bk + 1) * dy
  let opp : Int := if c = 1 then 2 else 1
  let blocked : Prop :=
    (0 ≤ fx ∧ fx < n ∧ 0 ≤ fy ∧ fy < n ∧ b fx fy = opp) ∨
    (0 ≤ bx ∧ bx < n ∧ 0 ≤ bv ∧ bv < n ∧ b bx bv = opp)
  if 5 ≤ total then w.FIVE
  else if total = 4 then (if blocked then w.BLOCKED_FOUR else w.FOUR)
  else if total = 3 then (if blocked then w.BLOCKED_THREE else w.THREE)
  else if total = 2 then (if blocked then w.BLOCKED_TWO else w.TWO)
  else if total = 1 then w.ONE
  else 0

/-- Specification-side candidate list of §4.6: the seed first, then the 8
neighbour offsets in the documented order, each kept only if in-bounds and
empty. -/
def specCandidates (b : Board) (seed : Int × Int) (n : Int) :
    List (Int × Int) :=
  seed :: neighborOffsets.filterMap (fun d =>
    let x := seed.1 + d.1
    let y := seed.2 + d.2
    if 0 ≤ x ∧ x < n ∧ 0 ≤ y ∧ y < n ∧ b x y = 0 then some (x, y) else none)

/-- Specification-side candidate score of §4.6: the arithmetic mean of
`reps` calls to `evaluateMove(board, candidate, color, weights)` with the
caller-supplied weights. -/
def specMean (b : Board) (m : Int × Int) (color : Int) (w : Weights)
    (reps : Nat) (n : Int) : ℚ :=
  (((List.range reps).map (fun _ => evaluate_move b m.1 m.2 color w n)).sum) /
    (reps : ℚ)

/-- The procedure `LocalMoveOptimizer.optimize` exactly as §4.6 of the specification words
it: enumerate the candidates in order — the seed first — score each with
`specMean` using the caller-supplied weights, and track a running best
updated only on strict improvement, so ties favor the earliest-enumerated
candidate and the seed beats every equally-scored neighbour.  This is the
description that claim C1 asserts `mcts_optimize` implements. -/
def optimizeSpec (b : Board) (seed : Int × Int) (color : Int) (w : Weights)
    (reps : Nat) (n : Int) : Int × Int :=
  (((specCandidates b seed n).tail).foldl
    (fun best m =>
      if best.1 < specMean b m color w reps n then
        (specMean b m color w reps n, m)
      else best)
    (specMean b seed color w reps n, seed)).2

/-- The all-empty board. -/
def bZero : Board := fun _ _ => 0

/-- A board with a single color-1 stone at `(4, 4)` (used with side 7). -/
def bC1 : Board := fun i j => if i = 4 ∧ j = 4 then 1 else 0

/-- A weight record whose only nonzero field is `TWO = 10`. -/
def wTwo : Weights := ⟨0, 0, 0, 0, 0, 10, 0, 0⟩

/-- A board (used with side 11) whose only stones form two disjoint winning
down-left diagonals of color 1, both with start row 0, with start columns 4
and 10. -/
def bC2 : Board := fun i j =>
  if (i, j) ∈ ([(0, 4), (1, 3), (2, 2), (3, 1), (4, 0),
                (0, 10), (1, 9), (2, 8), (3, 7), (4, 6)] : List (Int × Int))
  then 1 else 0

/-- A board (used with side 5) with row 0 and column 0 filled with color 1:
it holds both a horizontal five and a vertical five. -/
def bC3 : Board := fun i j => if i = 0 ∨ j = 0 then 1 else 0

/-- The 15 × 15 example board of the spec: four color-1 stones at
`(7,4) … (7,7)`, both ends of the row open. -/
def bC6 : Board := fun i j =>
  if i = 7 ∧ (j = 4 ∨ j = 5 ∨ j = 6 ∨ j = 7) then 1 else 0

/-- An arbitrary weight record with distinct nonzero fields. -/
def wC5 : Weights := ⟨100, 90, 80, 70, 60, 50, 40, 3⟩

/-- The complete scan order of `check_game_end`: every window of the four
passes, tagged with its step direction, in the order the loops examine
them. -/
def scanWindows (n : Int) : List ((Int × Int) × (Int × Int)) :=
  (hIdx n).map (fun p => (p, ((0 : Int), (1 : Int)))) ++
  (vIdx n).map (fun p => (p, ((1 : Int), (0 : Int)))) ++
  (d1Idx n).map (fun p => (p, ((1 : Int), (1 : Int)))) ++
  (d2Idx n).map (fun p => (p, ((1 : Int), (-1 : Int))))

/-- The window check applied to a tagged window. -/
def winW (b : Board) (pw : (Int × Int) × (Int × Int)) : Bool :=
  winAt b pw.1.1 pw.1.2 pw.2.1 pw.2.2

/-- Membership in an integer loop range. -/
theorem mem_intRange {a lo hi : Int} : a ∈ intRange lo hi ↔ lo ≤ a ∧ a < hi := by
  simp only [intRange, List.mem_map, List.mem_range]
  constructor
  · rintro ⟨k, hk, rfl⟩
    omega
  · intro h
    exact ⟨(a - lo).toNat, by omega, by omega⟩

/-- A nonempty loop range starts with its lower bound. -/
theorem intRange_cons {lo hi : Int} (h : lo < hi) :
    intRange lo hi = lo :: intRange (lo + 1) hi := by
  have h1 : (hi - lo).toNat = (hi - (lo + 1)).toNat + 1 := by omega
  simp only [intRange, h1, List.range_succ_eq_map, List.map_cons, List.map_map]
  refine List.cons_eq_cons.mpr ⟨by simp, ?_⟩
  congr 1
  funext k
  simp only [Function.comp_apply, Nat.succ_eq_add_one]
  push_cast
  ring

/-- A `find?` over a list all of whose elements fail the predicate misses. -/
theorem findNoneOf {α : Type} {p : α → Bool} {l : List α}
    (h : ∀ a ∈ l, p a = false) : l.find? p = none :=
  List.find?_eq_none.mpr (fun x hx => by simp [h x hx])

/-- A `find?` over a loop range returns the first index satisfying the
predicate (fuel-indexed induction). -/
theorem findIntRangeAux (p : Int → Bool) (c1 j : Int) (hp : p j = true)
    (hj1 : j < c1) :
    ∀ (m : Nat) (c0 : Int), (j - c0).toNat ≤ m → c0 ≤ j →
      (∀ k : Int, c0 ≤ k → k < j → p k = false) →
      (intRange c0 c1).find? p = some j := by
  intro m
  induction m with
  | zero =>
    intro c0 hm h0 hmin
    have hj0 : c0 = j := by omega
    subst hj0
    rw [intRange_cons (by omega)]
    simp [List.find?_cons, hp]
  | succ m ih =>
    intro c0 hm h0 hmin
    by_cases hc : c0 = j
    · subst hc
      rw [intRange_cons (by omega)]
      simp [List.find?_cons, hp]
    · have hlt : c0 < j := by omega
      rw [intRange_cons (by omega), List.find?_cons]
      have hfalse : p c0 = false := hmin c0 le_rfl hlt
      simp only [hfalse]
      exact ih (c0 + 1) (by omega) (by omega) (fun k h1 h2 => hmin k (by omega) h2)

/-- Positions of `rowMajor` are exactly the in-range pairs. -/
theorem mem_rowMajor {q : Int × Int} {r0 r1 c0 c1 : Int} :
    q ∈ rowMajor r0 r1 c0 c1 ↔ r0 ≤ q.1 ∧ q.1 < r1 ∧ c0 ≤ q.2 ∧ q.2 < c1 := by
  obtain ⟨i, j⟩ := q
  simp only [rowMajor, List.mem_flatMap, List.mem_map, mem_intRange, Prod.mk.injEq]
  constructor
  · rintro ⟨a, ha, b, hb, rfl, rfl⟩
    exact ⟨ha.1, ha.2, hb.1, hb.2⟩
  · rintro ⟨h1, h2, h3, h4⟩
    exact ⟨i, ⟨h1, h2⟩, j, ⟨h3, h4⟩, rfl, rfl⟩

/-- Peeling the first row off a nested loop index list. -/
theorem rowMajor_cons {r0 r1 c0 c1 : Int} (h : r0 < r1) :
    rowMajor r0 r1 c0 c1 =
      (intRange c0 c1).map (fun j => (r0, j)) ++ rowMajor (r0 + 1) r1 c0 c1 := by
  rw [rowMajor, intRange_cons h, List.flatMap_cons]
  rfl

/-- A `find?` over a row-major nested loop index list returns the row-major
first pair satisfying the predicate (fuel-indexed induction on rows). -/
theorem findRowMajorAux (p : Int × Int → Bool) (r1 c0 c1 i j : Int)
    (hp : p (i, j) = true) (hi1 : i < r1) (hj0 : c0 ≤ j) (hj1 : j < c1) :
    ∀ (m : Nat) (r0 : Int), (r1 - r0).toNat ≤ m → r0 ≤ i →
      (∀ q ∈ rowMajor r0 r1 c0 c1, lexLt q (i, j) → p q = false) →
      (rowMajor r0 r1 c0 c1).find? p = some (i, j) := by
  intro m
  induction m with
  | zero =>
    intro r0 hm h0 hmin
    omega
  | succ m ih =>
    intro r0 hm h0 hmin
    rw [rowMajor_cons (by omega), List.find?_append]
    by_cases hc : r0 = i
    · subst hc
      have hinner : (intRange c0 c1).find? (p ∘ fun k => (r0, k)) = some j := by
        apply findIntRangeAux _ c1 j hp hj1 ((j - c0).toNat) c0 le_rfl hj0
        intro k h1 h2
        exact hmin (r0, k)
          (mem_rowMajor.mpr ⟨le_rfl, by omega, h1, by omega⟩) (Or.inr ⟨rfl, h2⟩)
      rw [List.find?_map, hinner]
      rfl
    · have hlt : r0 < i := by omega
      have hrow : ((intRange c0 c1).map (fun j => (r0, j))).find? p = none := by
        apply findNoneOf
        intro q hq
        simp only [List.mem_map] at hq
        obtain ⟨k, hk, rfl⟩ := hq
        have hk2 := mem_intRange.mp hk
        exact hmin (r0, k)
          (mem_rowMajor.mpr ⟨le_rfl, by omega, hk2.1, hk2.2⟩) (Or.inl hlt)
      rw [hrow, Option.none_or]
      refine ih (r0 + 1) (by omega) (by omega) (fun q hq hlex => hmin q ?_ hlex)
      have hq2 := mem_rowMajor.mp hq
      exact mem_rowMajor.mpr ⟨by omega, hq2.2.1, hq2.2.2.1, hq2.2.2.2⟩

/-- Wrapper for `findRowMajorAux` fixing the fuel. -/
theorem findRowMajor (p : Int × Int → Bool) {r0 r1 c0 c1 i j : Int}
    (hi : r0 ≤ i ∧ i < r1) (hj : c0 ≤ j ∧ j < c1) (hp : p (i, j) = true)
    (hmin : ∀ q ∈ rowMajor r0 r1 c0 c1, lexLt q (i, j) → p q = false) :
    (rowMajor r0 r1 c0 c1).find? p = some (i, j) :=
  findRowMajorAux p r1 c0 c1 i j hp hi.2 hj.1 hj.2 (r1 - r0).toNat r0 le_rfl
    hi.1 hmin

/-- Unfolding of the 5-cell window check. -/
theorem winAt_iff {b : Board} {i j dx dy : Int} :
    winAt b i j dx dy = true ↔
      (b i j ≠ 0 ∧ ∀ k : Int, 0 ≤ k → k < 5 → b (i + k * dx) (j + k * dy) = b i j) := by
  simp only [winAt, Bool.and_eq_true, decide_eq_true_eq, List.all_eq_true,
    beq_iff_eq]
  constructor
  · rintro ⟨h1, h2⟩
    exact ⟨h1, fun k hk1 hk2 => h2 k (mem_intRange.mpr ⟨hk1, hk2⟩)⟩
  · rintro ⟨h1, h2⟩
    refine ⟨h1, fun k hk => ?_⟩
    have := mem_intRange.mp hk
    exact h2 k this.1 this.2

/-- Pair form of `mem_rowMajor`, convenient for closing goals with `omega`. -/
theorem memRowMajorPair {i j r0 r1 c0 c1 : Int} :
    (i, j) ∈ rowMajor r0 r1 c0 c1 ↔ r0 ≤ i ∧ i < r1 ∧ c0 ≤ j ∧ j < c1 :=
  mem_rowMajor

/-- Membership in the vertical pass index list. -/
theorem memVIdxPair {i j n : Int} :
    (i, j) ∈ vIdx n ↔ 0 ≤ i ∧ i < n - 4 ∧ 0 ≤ j ∧ j < n := by
  simp only [vIdx, List.mem_flatMap, List.mem_map, mem_intRange, Prod.mk.injEq]
  constructor
  · rintro ⟨a, ha, b2, hb, rfl, rfl⟩
    exact ⟨hb.1, hb.2, ha.1, ha.2⟩
  · rintro ⟨h1, h2, h3, h4⟩
    exact ⟨j, ⟨h3, h4⟩, i, ⟨h1, h2⟩, rfl, rfl⟩

/-- A `find?` over a direction-tagged window list reduces to the pass scan. -/
theorem findWinW (b : Board) (l : List (Int × Int)) (d : Int × Int) :
    (l.map (fun p => (p, d))).find? (winW b) =
      (scanPass b l d.1 d.2).map (fun p => (p, d)) := by
  rw [List.find?_map]
  rfl

/-- Unfolding of the full-board check. -/
theorem isFullB_iff {b : Board} {n : Int} : isFullB b n = true ↔ boardFull b n := by
  simp only [isFullB, boardFull, List.all_eq_true, Bool.not_eq_true',
    beq_eq_false_iff_ne, ne_eq]
  constructor
  · intro h i j hi1 hi2 hj1 hj2
    exact h i (mem_intRange.mpr ⟨hi1, hi2⟩) j (mem_intRange.mpr ⟨hj1, hj2⟩)
  · intro h i hi j hj
    have h1 := mem_intRange.mp hi
    have h2 := mem_intRange.mp hj
    exact h i j h1.1 h1.2 h2.1 h2.2

/-- A winning in-bounds window along one of the four axes yields `hasFive`. -/
theorem hasFive_of_win {b : Board} {n i j dx dy : Int}
    (hd : (dx, dy) = ((0 : Int), (1 : Int)) ∨ (dx, dy) = (1, 0) ∨
          (dx, dy) = (1, 1) ∨ (dx, dy) = (1, -1))
    (hin : ∀ k : Int, 0 ≤ k → k < 5 →
      0 ≤ i + k * dx ∧ i + k * dx < n ∧ 0 ≤ j + k * dy ∧ j + k * dy < n)
    (hw : winAt b i j dx dy = true) : hasFive b n :=
  ⟨i, j, dx, dy, hd, hin, (winAt_iff.mp hw).1, (winAt_iff.mp hw).2⟩

/-- A hit in the horizontal pass means a five-in-a-row exists. -/
theorem scanPassHhasFive {b : Board} {n : Int} {p : Int × Int}
    (h : scanPass b (hIdx n) 0 1 = some p) : hasFive b n := by
  obtain ⟨i, j⟩ := p
  have hf : (hIdx n).find? (fun q => winAt b q.1 q.2 0 1) = some (i, j) := h
  have hmem := memRowMajorPair.mp (List.mem_of_find?_eq_some hf)
  have hwin := List.find?_some hf
  refine hasFive_of_win (Or.inl rfl) (fun k h1 h2 => ?_) hwin
  omega

/-- A hit in the vertical pass means a five-in-a-row exists. -/
theorem scanPassVhasFive {b : Board} {n : Int} {p : Int × Int}
    (h : scanPass b (vIdx n) 1 0 = some p) : hasFive b n := by
  obtain ⟨i, j⟩ := p
  have hf : (vIdx n).find? (fun q => winAt b q.1 q.2 1 0) = some (i, j) := h
  have hmem := memVIdxPair.mp (List.mem_of_find?_eq_some hf)
  have hwin := List.find?_some hf
  refine hasFive_of_win (Or.inr (Or.inl rfl)) (fun k h1 h2 => ?_) hwin
  omega

/-- A hit in the down-right diagonal pass means a five-in-a-row exists. -/
theorem scanPassD1hasFive {b : Board} {n : Int} {p : Int × Int}
    (h : scanPass b (d1Idx n) 1 1 = some p) : hasFive b n := by
  obtain ⟨i, j⟩ := p
  have hf : (d1Idx n).find? (fun q => winAt b q.1 q.2 1 1) = some (i, j) := h
  have hmem := memRowMajorPair.mp (List.mem_of_find?_eq_some hf)
  have hwin := List.find?_some hf
  refine hasFive_of_win (Or.inr (Or.inr (Or.inl rfl))) (fun k h1 h2 => ?_) hwin
  omega

/-- A hit in the down-left diagonal pass means a five-in-a-row exists. -/
theorem scanPassD2hasFive {b : Board} {n : Int} {p : Int × Int}
    (h : scanPass b (d2Idx n) 1 (-1) = some p) : hasFive b n := by
  obtain ⟨i, j⟩ := p
  have hf : (d2Idx n).find? (fun q => winAt b q.1 q.2 1 (-1)) = some (i, j) := h
  have hmem := memRowMajorPair.mp (List.mem_of_find?_eq_some hf)
  have hwin := List.find?_some hf
  refine hasFive_of_win (Or.inr (Or.inr (Or.inr rfl))) (fun k h1 h2 => ?_) hwin
  omega

/-- If all four passes miss, no five-in-a-row exists: the four loops
exhaust all fully in-bounds windows. -/
theorem scanPassesNoneNotHasFive {b : Board} {n : Int}
    (h1 : scanPass b (hIdx n) 0 1 = none) (h2 : scanPass b (vIdx n) 1 0 = none)
    (h3 : scanPass b (d1Idx n) 1 1 = none)
    (h4 : scanPass b (d2Idx n) 1 (-1) = none) : ¬ hasFive b n := by
  rintro ⟨i, j, dx, dy, hd, hin, hnz, heq⟩
  have hw : winAt b i j dx dy = true := winAt_iff.mpr ⟨hnz, heq⟩
  have h00 := hin 0 le_rfl (by norm_num)
  have h44 := hin 4 (by norm_num) (by norm_num)
  rcases hd with hd | hd | hd | hd <;> rw [Prod.mk.injEq] at hd <;>
    obtain ⟨rfl, rfl⟩ := hd
  · have hf : (hIdx n).find? (fun q => winAt b q.1 q.2 0 1) = none := h1
    have hmem : (i, j) ∈ hIdx n := memRowMajorPair.mpr (by omega)
    exact absurd hw (by simpa using List.find?_eq_none.mp hf (i, j) hmem)
  · have hf : (vIdx n).find? (fun q => winAt b q.1 q.2 1 0) = none := h2
    have hmem : (i, j) ∈ vIdx n := memVIdxPair.mpr (by omega)
    exact absurd hw (by simpa using List.find?_eq_none.mp hf (i, j) hmem)
  · have hf : (d1Idx n).find? (fun q => winAt b q.1 q.2 1 1) = none := h3
    have hmem : (i, j) ∈ d1Idx n := memRowMajorPair.mpr (by omega)
    exact absurd hw (by simpa using List.find?_eq_none.mp hf (i, j) hmem)
  · have hf : (d2Idx n).find? (fun q => winAt b q.1 q.2 1 (-1)) = none := h4
    have hmem : (i, j) ∈ d2Idx n := memRowMajorPair.mpr (by omega)
    exact absurd hw (by simpa using List.find?_eq_none.mp hf (i, j) hmem)

/-- C3: `check_game_end` scans all horizontal windows, then vertical, then
down-right, then down-left, in loop order, and returns for the first window
whose 5 cells are all equal and nonzero a `Win` result carrying that color
and exactly those 5 positions in scan order (so a longer run is reported via
only its first-matching 5-cell sub-window); in particular, whenever the
horizontal pass has a winning window — e.g. on a board that also holds a
vertical five — the horizontal pass's first hit is the one reported. -/
theorem c3_scan_priority_first_window (b : Board) (n : Int) :
    (∀ pw : (Int × Int) × (Int × Int),
      (scanWindows n).find? (winW b) = some pw →
      check_game_end b n =
        ⟨true, b pw.1.1 pw.1.2, 5, cells5 pw.1.1 pw.1.2 pw.2.1 pw.2.2⟩) ∧
    (∀ p : Int × Int,
      scanPass b (hIdx n) 0 1 = some p →
      check_game_end b n = ⟨true, b p.1 p.2, 5, cells5 p.1 p.2 0 1⟩) := by
  constructor
  · intro pw hfind
    unfold scanWindows at hfind
    rw [List.find?_append, List.find?_append, List.find?_append,
      findWinW, findWinW, findWinW, findWinW] at hfind
    cases h1 : scanPass b (hIdx n) 0 1 with
    | some p =>
      rw [h1] at hfind
      simp only [Option.map_some', Option.or, Option.some.injEq] at hfind
      subst hfind
      simp [check_game_end, h1, winResult]
    | none =>
      cases h2 : scanPass b (vIdx n) 1 0 with
      | some p =>
        rw [h1, h2] at hfind
        simp only [Option.map_some', Option.map_none', Option.or,
          Option.some.injEq] at hfind
        subst hfind
        simp [check_game_end, h1, h2, winResult]
      | none =>
        cases h3 : scanPass b (d1Idx n) 1 1 with
        | some p =>
          rw [h1, h2, h3] at hfind
          simp only [Option.map_some', Option.map_none', Option.or,
            Option.some.injEq] at hfind
          subst hfind
          simp [check_game_end, h1, h2, h3, winResult]
        | none =>
          cases h4 : scanPass b (d2Idx n) 1 (-1) with
          | some p =>
            rw [h1, h2, h3, h4] at hfind
            simp only [Option.map_some', Option.map_none', Option.or,
              Option.some.injEq] at hfind
            subst hfind
            simp [check_game_end, h1, h2, h3, h4, winResult]
          | none =>
            rw [h1, h2, h3, h4] at hfind
            simp only [Option.map_none', Option.or] at hfind
            cases hfind
  · intro p h1
    simp [check_game_end, h1, winResult]

/-- Witness for C3: on the 5×5 board whose row 0 and column 0 are filled
with color 1 — so a horizontal five and a vertical five are simultaneously
present — the horizontal window starting at `(0,0)` is the one reported. -/
theorem c3_scan_priority_first_window_witness :
    check_game_end bC3 5 = ⟨true, bC3 0 0, 5, cells5 0 0 0 1⟩ ∧
    winAt bC3 0 0 1 0 = true :=
  ⟨(c3_scan_priority_first_window bC3 5).1 ((0, 0), (0, 1)) (by decide),
   by decide⟩

/-- C4: `check_game_end` reports a Draw (ended with winner code 0) iff the
board is completely filled and no five-in-a-row of either color exists on
any of the 4 axes, and reports Ongoing (not ended) iff some cell is empty
and no five-in-a-row exists. -/
theorem c4_draw_ongoing_characterization (b : Board) (n : Int) :
    (((check_game_end b n).is_end = true ∧ (check_game_end b n).winner = 0) ↔
      (boardFull b n ∧ ¬ hasFive b n)) ∧
    ((check_game_end b n).is_end = false ↔
      (¬ boardFull b n ∧ ¬ hasFive b n)) := by
  cases h1 : scanPass b (hIdx n) 0 1 with
  | some p =>
    have hf : (hIdx n).find? (fun q => winAt b q.1 q.2 0 1) = some p := h1
    have hwa := List.find?_some hf
    have hnz := (winAt_iff.mp hwa).1
    have hfive := scanPassHhasFive h1
    simp [check_game_end, h1, winResult, hnz, hfive]
  | none =>
    cases h2 : scanPass b (vIdx n) 1 0 with
    | some p =>
      have hf : (vIdx n).find? (fun q => winAt b q.1 q.2 1 0) = some p := h2
      have hwa := List.find?_some hf
      have hnz := (winAt_iff.mp hwa).1
      have hfive := scanPassVhasFive h2
      simp [check_game_end, h1, h2, winResult, hnz, hfive]
    | none =>
      cases h3 : scanPass b (d1Idx n) 1 1 with
      | some p =>
        have hf : (d1Idx n).find? (fun q => winAt b q.1 q.2 1 1) = some p := h3
        have hwa := List.find?_some hf
        have hnz := (winAt_iff.mp hwa).1
        have hfive := scanPassD1hasFive h3
        simp [check_game_end, h1, h2, h3, winResult, hnz, hfive]
      | none =>
        cases h4 : scanPass b (d2Idx n) 1 (-1) with
        | some p =>
          have hf : (d2Idx n).find? (fun q => winAt b q.1 q.2 1 (-1)) = some p := h4
          have hwa := List.find?_some hf
          have hnz := (winAt_iff.mp hwa).1
          have hfive := scanPassD2hasFive h4
          simp [check_game_end, h1, h2, h3, h4, winResult, hnz, hfive]
        | none =>
          have hnf : ¬ hasFive b n := scanPassesNoneNotHasFive h1 h2 h3 h4
          cases hfull : isFullB b n with
          | true =>
            have hbf := isFullB_iff.mp hfull
            simp [check_game_end, h1, h2, h3, h4, hfull, hbf, hnf]
          | false =>
            have hbf : ¬ boardFull b n := fun hc => by
              rw [isFullB_iff.mpr hc] at hfull
              cases hfull
            simp [check_game_end, h1, h2, h3, h4, hfull, hbf, hnf]

/-- Witness for C4: the empty 5×5 board is Ongoing — it is not full and no
five-in-a-row exists. -/
theorem c4_draw_ongoing_characterization_witness :
    (check_game_end bZero 5).is_end = false :=
  (c4_draw_ongoing_characterization bZero 5).2.mpr
    ⟨fun h => absurd rfl
        (h 0 0 (by norm_num) (by norm_num) (by norm_num) (by norm_num)),
     fun hf => by
       obtain ⟨i, j, dx, dy, -, -, hnz, -⟩ := hf
       exact hnz rfl⟩

/-- Counterexample to C2 as stated: on `bC2` (side 11) the down-left windows
starting at `(0, 4)` and `(0, 10)` both win, the start rows are equal, the
first three passes miss, and `check_game_end` reports the window with the
smaller start column `(0, 4)` — not the larger start column `(0, 10)` that
the claim's descending-column order would make it report. -/
theorem c2_counterexample :
    scanPass bC2 (hIdx 11) 0 1 = none ∧
    scanPass bC2 (vIdx 11) 1 0 = none ∧
    scanPass bC2 (d1Idx 11) 1 1 = none ∧
    winAt bC2 0 4 1 (-1) = true ∧
    winAt bC2 0 10 1 (-1) = true ∧
    check_game_end bC2 11 =
      ⟨true, 1, 5, [(0, 4), (1, 3), (2, 2), (3, 1), (4, 0)]⟩ ∧
    (check_game_end bC2 11).win_line ≠ cells5 0 10 1 (-1) := by
  decide

/-- C2 (amended): in the fourth pass the windows are examined with start-row
ascending and, within each start row, start-column ascending from 4 up to
`N-1`; consequently, when the first three passes miss and `(i, j1)` is the
row-major-first winning window of the fourth pass, it is the one reported,
even when a window `(i, j2)` with the same start row and a larger start
column also wins — the smaller start column wins, and the reported line is
not the larger-column window's line. -/
theorem c2_fourth_pass_smaller_column (b : Board) (n i j1 j2 : Int)
    (h1 : scanPass b (hIdx n) 0 1 = none)
    (h2 : scanPass b (vIdx n) 1 0 = none)
    (h3 : scanPass b (d1Idx n) 1 1 = none)
    (hi : 0 ≤ i ∧ i < n - 4) (hj1 : 4 ≤ j1 ∧ j1 < n)
    (hj2 : j1 < j2 ∧ j2 < n)
    (hw1 : winAt b i j1 1 (-1) = true) (hw2 : winAt b i j2 1 (-1) = true)
    (hmin : ∀ q ∈ d2Idx n, lexLt q (i, j1) → winAt b q.1 q.2 1 (-1) = false) :
    check_game_end b n = ⟨true, b i j1, 5, cells5 i j1 1 (-1)⟩ ∧
      cells5 i j1 1 (-1) ≠ cells5 i j2 1 (-1) := by
  have h4 : scanPass b (d2Idx n) 1 (-1) = some (i, j1) := by
    show (rowMajor 0 (n - 4) 4 n).find? (fun p => winAt b p.1 p.2 1 (-1)) =
      some (i, j1)
    exact findRowMajor _ hi hj1 hw1 hmin
  constructor
  · simp [check_game_end, h1, h2, h3, h4, winResult]
  · intro hceq
    have h5 : intRange 0 5 = [0, 1, 2, 3, 4] := by decide
    rw [cells5, cells5, h5] at hceq
    simp only [List.map_cons, List.map_nil, List.cons.injEq,
      Prod.mk.injEq] at hceq
    omega

/-- Witness for the amended C2, instantiating it on the counterexample
board: the smaller-column window `(0, 4)` is reported. -/
theorem c2_fourth_pass_smaller_column_witness :
    check_game_end bC2 11 = ⟨true, bC2 0 4, 5, cells5 0 4 1 (-1)⟩ ∧
      cells5 0 4 1 (-1) ≠ cells5 0 10 1 (-1) :=
  c2_fourth_pass_smaller_column bC2 11 0 4 10 (by decide) (by decide)
    (by decide) (by decide) (by decide) (by decide) (by decide) (by decide)
    (by decide)

/-- C6: `find_winning_move` scans the cells in row-major order and returns
the first empty cell at which tentatively placing `color` ends the game
with `color` as the winner; if no cell qualifies it returns `(-1, -1)`. -/
theorem c6_find_winning_move_first (b : Board) (color n : Int) :
    (∀ i j : Int, (i, j) ∈ cellIdx n → winsAt b color n (i, j) = true →
      (∀ q ∈ cellIdx n, lexLt q (i, j) → winsAt b color n q = false) →
      find_winning_move b color n = (i, j)) ∧
    ((∀ q ∈ cellIdx n, winsAt b color n q = false) →
      find_winning_move b color n = (-1, -1)) := by
  constructor
  · intro i j hmem hp hmin
    have hb := memRowMajorPair.mp hmem
    have hfind : (cellIdx n).find? (winsAt b color n) = some (i, j) :=
      findRowMajor _ ⟨hb.1, hb.2.1⟩ ⟨hb.2.2.1, hb.2.2.2⟩ hp hmin
    simp [find_winning_move, hfind]
  · intro hall
    have hfind : (cellIdx n).find? (winsAt b color n) = none := findNoneOf hall
    simp [find_winning_move, hfind]

/-- Witness for C6: on the spec's 15×15 example board with four color-1
stones at `(7,4)-(7,7)`, the first winning placement in row-major order is
`(7, 3)` — not `(7, 8)`; and on an empty 5×5 board there is no winning
placement, so the sentinel `(-1, -1)` is returned. -/
theorem c6_find_winning_move_first_witness :
    find_winning_move bC6 1 15 = (7, 3) ∧
      find_winning_move bZero 1 5 = (-1, -1) :=
  ⟨(c6_find_winning_move_first bC6 1 15).1 7 3 (by decide) (by decide)
      (by decide),
   (c6_find_winning_move_first bZero 1 5).2 (by decide)⟩

/-- C7: `validate_move` succeeds iff the position is in-bounds, the cell is
empty, and the player code is in `{1, 2}`; when it fails it returns exactly
one documented reason, determined by checking bounds before occupancy
before player validity. -/
theorem c7_validate_move_characterization (b : Board) (x y c n : Int) :
    (validate_move b x y c n = (true, "success") ↔
      ((0 ≤ x ∧ x < n ∧ 0 ≤ y ∧ y < n) ∧ b x y = 0 ∧ (c = 1 ∨ c = 2))) ∧
    (¬ (0 ≤ x ∧ x < n ∧ 0 ≤ y ∧ y < n) →
      validate_move b x y c n = (false, "invalid_position")) ∧
    ((0 ≤ x ∧ x < n ∧ 0 ≤ y ∧ y < n) → b x y ≠ 0 →
      validate_move b x y c n = (false, "occupied")) ∧
    ((0 ≤ x ∧ x < n ∧ 0 ≤ y ∧ y < n) → b x y = 0 → ¬ (c = 1 ∨ c = 2) →
      validate_move b x y c n = (false, "invalid_player")) := by
  unfold validate_move
  split_ifs with hb ho hp
  · refine ⟨⟨fun h => by simp at h, fun h => absurd h.1 (by omega)⟩,
      fun h => rfl, fun h _ => absurd hb (by omega),
      fun h _ _ => absurd hb (by omega)⟩
  · refine ⟨⟨fun h => by simp at h, fun h => absurd h.2.1 ho⟩,
      fun h => absurd (by omega : 0 ≤ x ∧ x < n ∧ 0 ≤ y ∧ y < n) h,
      fun h _ => rfl, fun h h0 _ => absurd h0 ho⟩
  · refine ⟨⟨fun h => by simp at h, fun h => absurd h.2.2 (by omega)⟩,
      fun h => absurd (by omega : 0 ≤ x ∧ x < n ∧ 0 ≤ y ∧ y < n) h,
      fun h h0 => absurd (by omega : b x y = b x y ∧ True).1 (fun _ => h0 (by
        exact not_not.mp ho)), fun h _ _ => rfl⟩
  · refine ⟨⟨fun h => ⟨by omega, not_not.mp ho, by omega⟩, fun h => rfl⟩,
      fun h => absurd (by omega : 0 ≤ x ∧ x < n ∧ 0 ≤ y ∧ y < n) h,
      fun h h0 => absurd (not_not.mp ho) h0,
      fun h h0 hc => absurd hc (by omega)⟩

/-- Witness for C7: one instance of each branch on the single-stone board
`bC1` with side 7. -/
theorem c7_validate_move_characterization_witness :
    validate_move bC1 4 4 1 7 = (false, "occupied") ∧
    validate_move bC1 9 0 3 7 = (false, "invalid_position") ∧
    validate_move bC1 0 0 3 7 = (false, "invalid_player") ∧
    validate_move bC1 0 0 2 7 = (true, "success") :=
  ⟨(c7_validate_move_characterization bC1 4 4 1 7).2.2.1 (by decide) (by decide),
   (c7_validate_move_characterization bC1 9 0 3 7).2.1 (by decide),
   (c7_validate_move_characterization bC1 0 0 3 7).2.2.2 (by decide)
     (by decide) (by decide),
   (c7_validate_move_characterization bC1 0 0 2 7).1.mpr (by decide)⟩

/-- C8: the board returned by `place_piece` holds `color` at `(x, y)` and
agrees with the input board at every other position; the input board is a
value that is never mutated. -/
theorem c8_place_piece_frame (b : Board) (x y c n : Int) :
    place_piece b x y c n x y = c ∧
      (∀ i j : Int, ¬ (i = x ∧ j = y) → place_piece b x y c n i j = b i j) := by
  constructor
  · simp [place_piece, updateCell]
  · intro i j h
    simp only [place_piece, updateCell]
    rw [if_neg h]

/-- Witness for C8 at a concrete cell and a concrete distinct cell. -/
theorem c8_place_piece_frame_witness :
    place_piece bZero 1 2 1 5 1 2 = 1 ∧ place_piece bZero 1 2 1 5 0 0 = 0 :=
  ⟨(c8_place_piece_frame bZero 1 2 1 5).1,
   (c8_place_piece_frame bZero 1 2 1 5).2 0 0 (by decide)⟩

/-- The function `takeWhile` only depends on the pointwise values of the predicate. -/
theorem takeWhileCongr {α : Type} {p q : α → Bool} :
    ∀ l : List α, (∀ a ∈ l, p a = q a) → l.takeWhile p = l.takeWhile q := by
  intro l
  induction l with
  | nil => intro h; rfl
  | cons a l ih =>
    intro h
    rw [List.takeWhile_cons, List.takeWhile_cons, h a (List.mem_cons_self a l)]
    cases hqa : q a with
    | false => simp [hqa]
    | true =>
      simp only [hqa, if_pos]
      rw [ih (fun x hx => h x (List.mem_cons_of_mem a hx))]

/-- Shifting the loop guard one step along the direction. -/
theorem lineCond_succ (b : Board) (n color x y dx dy : Int) (t : Nat) :
    lineCond b n color x y dx dy (t + 1) =
      lineCond b n color (x + dx) (y + dy) dx dy t := by
  unfold lineCond
  have e1 : x + ((t + 1 : Nat) : Int) * dx = x + dx + (t : Int) * dx := by
    push_cast; ring
  have e2 : y + ((t + 1 : Nat) : Int) * dy = y + dy + (t : Int) * dy := by
    push_cast; ring
  rw [e1, e2]

/-- The `check_line` loop counts exactly the `takeWhile` prefix of steps on
which its guard holds. -/
theorem check_lineF_length (b : Board) (dx dy color n : Int) :
    ∀ (fuel : Nat) (x y : Int),
      check_lineF b dx dy color n fuel x y =
        ((List.range fuel).takeWhile (lineCond b n color x y dx dy)).length := by
  intro fuel
  induction fuel with
  | zero => intro x y; rfl
  | succ fuel ih =>
    intro x y
    simp only [check_lineF]
    rw [List.range_succ_eq_map, List.takeWhile_cons]
    have hc0 : (lineCond b n color x y dx dy 0 = true) ↔
        (0 ≤ x ∧ x < n ∧ 0 ≤ y ∧ y < n ∧ b x y = color) := by
      simp [lineCond]
    by_cases h0 : 0 ≤ x ∧ x < n ∧ 0 ≤ y ∧ y < n ∧ b x y = color
    · rw [if_pos h0, if_pos (hc0.mpr h0)]
      have hmap : (List.map Nat.succ (List.range fuel)).takeWhile
            (lineCond b n color x y dx dy) =
          List.map Nat.succ ((List.range fuel).takeWhile
            (lineCond b n color (x + dx) (y + dy) dx dy)) := by
        rw [List.takeWhile_map]
        congr 1
        apply takeWhileCongr
        intro t ht
        simp only [Function.comp_apply, Nat.succ_eq_add_one]
        rw [lineCond_succ]
      rw [hmap, List.length_cons, List.length_map, ih (x + dx) (y + dy)]
    · rw [if_neg h0, if_neg (fun hh => h0 (hc0.mp hh))]
      rfl

/-- The specification-side beyond-count is exactly what `check_line`
computes from the first cell past the position. -/
theorem specBeyond_eq_check_line (b : Board) (n x y dx dy c : Int) :
    specBeyond b n x y dx dy c = check_line b (x + dx) (y + dy) dx dy c n := by
  rw [check_line, check_lineF_length]
  unfold specBeyond
  congr 1
  apply takeWhileCongr
  intro t ht
  unfold lineCond
  have e1 : x + dx + (t : Int) * dx = x + ((t : Int) + 1) * dx := by ring
  have e2 : y + dy + (t : Int) * dy = y + ((t : Int) + 1) * dy := by ring
  rw [e1, e2]

/-- The per-axis weight computed by the code from its loop counts equals the
specification-side per-axis weight computed from the beyond-counts. -/
theorem patternAxis_eq_spec (b : Board) (n x y c : Int) (w : Weights)
    (dx dy : Int) :
    patternAxis b x y c (if c = 1 then 2 else 1) w n dx dy =
      specAxisWeight b n x y c w dx dy := by
  unfold patternAxis specAxisWeight
  rw [specBeyond_eq_check_line, specBeyond_eq_check_line]
  have e1 : x + -dx = x - dx := by ring
  have e2 : y + -dy = y - dy := by ring
  rw [e1, e2]

/-- On an otherwise empty board, no consecutive run extends beyond the
freshly placed stone in any nonzero direction. -/
theorem specBeyond_zero_of_empty (b : Board) (n x y dx dy c : Int)
    (hc : c ≠ 0) (hd : ¬ (x + dx = x ∧ y + dy = y))
    (hb : ∀ i j : Int, b i j = 0) :
    specBeyond (updateCell b x y c) n x y dx dy c = 0 := by
  unfold specBeyond
  rw [List.range_succ_eq_map, List.takeWhile_cons]
  split
  · next hcond =>
    exfalso
    simp only [Nat.cast_zero, zero_add, one_mul, decide_eq_true_eq,
      updateCell] at hcond
    obtain ⟨-, -, -, -, hlast⟩ := hcond
    rw [if_neg hd] at hlast
    rw [hb (x + dx) (y + dy)] at hlast
    exact hc hlast.symm
  · rfl

/-- When both beyond-counts vanish the per-axis weight is `ONE`. -/
theorem specAxisWeight_one (b' : Board) (n x y c : Int) (w : Weights)
    (dx dy : Int) (hf : specBeyond b' n x y dx dy c = 0)
    (hbk : specBeyond b' n x y (-dx) (-dy) c = 0) :
    specAxisWeight b' n x y c w dx dy = w.ONE := by
  unfold specAxisWeight
  rw [hf, hbk]
  norm_num

/-- C5: with `c` placed at the in-bounds position `(x, y)`, `evaluate_move`
equals the sum over the four axes of the weight selected from the
specification's `(total, blocked)` mapping, where `forward`/`backward` are
the consecutive-run counts strictly beyond the position and an end that
falls off the board never counts as blocked; in particular, on an otherwise
empty board a lone stone scores exactly `4 × ONE`. -/
theorem c5_evaluate_move_pattern_sum (b : Board) (n x y c : Int) (w : Weights)
    (hn : 5 ≤ n) (hx : 0 ≤ x ∧ x < n) (hy : 0 ≤ y ∧ y < n)
    (hc : c = 1 ∨ c = 2) :
    evaluate_move b x y c w n =
      (dirList.map (fun d =>
        specAxisWeight (updateCell b x y c) n x y c w d.1 d.2)).sum ∧
    ((∀ i j : Int, b i j = 0) → evaluate_move b x y c w n = 4 * w.ONE) := by
  have main : evaluate_move b x y c w n =
      (dirList.map (fun d =>
        specAxisWeight (updateCell b x y c) n x y c w d.1 d.2)).sum := by
    unfold evaluate_move get_pattern_score
    simp only [patternAxis_eq_spec]
  refine ⟨main, fun hb0 => ?_⟩
  have hcne : c ≠ 0 := by rcases hc with rfl | rfl <;> decide
  have hsb : ∀ dx dy : Int, ¬ (x + dx = x ∧ y + dy = y) →
      specBeyond (updateCell b x y c) n x y dx dy c = 0 :=
    fun dx dy hd => specBeyond_zero_of_empty b n x y dx dy c hcne hd hb0
  have ha1 : specAxisWeight (updateCell b x y c) n x y c w 0 1 = w.ONE :=
    specAxisWeight_one _ _ _ _ _ _ _ _
      (hsb 0 1 (by rintro ⟨-, h⟩; omega))
      (hsb (-0) (-1) (by rintro ⟨-, h⟩; omega))
  have ha2 : specAxisWeight (updateCell b x y c) n x y c w 1 0 = w.ONE :=
    specAxisWeight_one _ _ _ _ _ _ _ _
      (hsb 1 0 (by rintro ⟨h, -⟩; omega))
      (hsb (-1) (-0) (by rintro ⟨h, -⟩; omega))
  have ha3 : specAxisWeight (updateCell b x y c) n x y c w 1 1 = w.ONE :=
    specAxisWeight_one _ _ _ _ _ _ _ _
      (hsb 1 1 (by rintro ⟨h, -⟩; omega))
      (hsb (-1) (-1) (by rintro ⟨h, -⟩; omega))
  have ha4 : specAxisWeight (updateCell b x y c) n x y c w 1 (-1) = w.ONE :=
    specAxisWeight_one _ _ _ _ _ _ _ _
      (hsb 1 (-1) (by rintro ⟨h, -⟩; omega))
      (hsb (-1) (-(-1)) (by rintro ⟨h, -⟩; omega))
  rw [main]
  simp only [dirList, List.map_cons, List.map_nil, List.sum_cons, List.sum_nil]
  rw [ha1, ha2, ha3, ha4]
  ring

/-- Witness for C5: a lone color-1 stone placed at `(2, 2)` of an empty 5×5
board scores four times the `ONE` weight. -/
theorem c5_evaluate_move_pattern_sum_witness :
    evaluate_move bZero 2 2 1 wC5 5 = 4 * wC5.ONE :=
  (c5_evaluate_move_pattern_sum bZero 5 2 2 1 wC5 (by norm_num)
    (by norm_num) (by norm_num) (Or.inl rfl)).2 (fun i j => rfl)

/-- Every branch of the per-axis weight map returns a field of the weight
record or a literal zero, so an all-zero record scores zero on each axis. -/
theorem patternAxis_zeroW (b : Board) (x y color opponent : Int) (w : Weights)
    (hw : w.FIVE = 0 ∧ w.FOUR = 0 ∧ w.BLOCKED_FOUR = 0 ∧ w.THREE = 0 ∧
      w.BLOCKED_THREE = 0 ∧ w.TWO = 0 ∧ w.BLOCKED_TWO = 0 ∧ w.ONE = 0)
    (n dx dy : Int) : patternAxis b x y color opponent w n dx dy = 0 := by
  obtain ⟨h1, h2, h3, h4, h5, h6, h7, h8⟩ := hw
  unfold patternAxis
  dsimp only
  split_ifs <;> simp_all

/-- An all-zero weight record makes every move evaluate to zero. -/
theorem evaluate_move_zeroW (b : Board) (x y color : Int) (w : Weights)
    (hw : w.FIVE = 0 ∧ w.FOUR = 0 ∧ w.BLOCKED_FOUR = 0 ∧ w.THREE = 0 ∧
      w.BLOCKED_THREE = 0 ∧ w.TWO = 0 ∧ w.BLOCKED_TWO = 0 ∧ w.ONE = 0)
    (n : Int) : evaluate_move b x y color w n = 0 := by
  have hz : ∀ (bb : Board) (xx yy cc oo nn ddx ddy : Int),
      patternAxis bb xx yy cc oo w nn ddx ddy = 0 :=
    fun bb xx yy cc oo nn ddx ddy =>
      patternAxis_zeroW bb xx yy cc oo w hw nn ddx ddy
  unfold evaluate_move get_pattern_score
  simp [hz, dirList]

/-- An all-zero weight record makes every candidate's mean score zero. -/
theorem mcts_meanScore_zeroW (b : Board) (m : Int × Int) (color : Int)
    (w : Weights)
    (hw : w.FIVE = 0 ∧ w.FOUR = 0 ∧ w.BLOCKED_FOUR = 0 ∧ w.THREE = 0 ∧
      w.BLOCKED_THREE = 0 ∧ w.TWO = 0 ∧ w.BLOCKED_TWO = 0 ∧ w.ONE = 0)
    (iterations n : Int) : mcts_meanScore b m color w iterations n = 0 := by
  have hz : ∀ (bb : Board) (xx yy nn : Int),
      evaluate_move bb xx yy color w nn = 0 :=
    fun bb xx yy nn => evaluate_move_zeroW bb xx yy color w hw nn
  unfold mcts_meanScore
  simp [hz]

/-- The spec-side mean is zero under an all-zero weight record. -/
theorem specMean_zeroW (b : Board) (m : Int × Int) (color : Int) (w : Weights)
    (hw : w.FIVE = 0 ∧ w.FOUR = 0 ∧ w.BLOCKED_FOUR = 0 ∧ w.THREE = 0 ∧
      w.BLOCKED_THREE = 0 ∧ w.TWO = 0 ∧ w.BLOCKED_TWO = 0 ∧ w.ONE = 0)
    (reps : Nat) (n : Int) : specMean b m color w reps n = 0 := by
  have hz : ∀ (bb : Board) (xx yy nn : Int),
      evaluate_move bb xx yy color w nn = 0 :=
    fun bb xx yy nn => evaluate_move_zeroW bb xx yy color w hw nn
  unfold specMean
  simp [hz]

/-- A strict-improvement fold where every candidate scores zero never leaves
an accumulator whose score is already zero. -/
theorem mctsFoldlZero (b : Board) (color : Int) (w : Weights)
    (hw : w.FIVE = 0 ∧ w.FOUR = 0 ∧ w.BLOCKED_FOUR = 0 ∧ w.THREE = 0 ∧
      w.BLOCKED_THREE = 0 ∧ w.TWO = 0 ∧ w.BLOCKED_TWO = 0 ∧ w.ONE = 0)
    (iterations n : Int) :
    ∀ (l : List (Int × Int)) (acc : ℚ × (Int × Int)), acc.1 = 0 →
      l.foldl (fun best m =>
        if best.1 < mcts_meanScore b m color w iterations n then
          (mcts_meanScore b m color w iterations n, m)
        else best) acc = acc := by
  intro l
  induction l with
  | nil => intro acc h; rfl
  | cons a l ih =>
    intro acc h
    rw [List.foldl_cons, mcts_meanScore_zeroW b a color w hw iterations n, h,
      if_neg (lt_irrefl 0)]
    exact ih acc h

/-- The spec-side strict-improvement fold under all-zero scores. -/
theorem specFoldlZero (b : Board) (color : Int) (w : Weights)
    (hw : w.FIVE = 0 ∧ w.FOUR = 0 ∧ w.BLOCKED_FOUR = 0 ∧ w.THREE = 0 ∧
      w.BLOCKED_THREE = 0 ∧ w.TWO = 0 ∧ w.BLOCKED_TWO = 0 ∧ w.ONE = 0)
    (reps : Nat) (n : Int) :
    ∀ (l : List (Int × Int)) (acc : ℚ × (Int × Int)), acc.1 = 0 →
      l.foldl (fun best m =>
        if best.1 < specMean b m color w reps n then
          (specMean b m color w reps n, m)
        else best) acc = acc := by
  intro l
  induction l with
  | nil => intro acc h; rfl
  | cons a l ih =>
    intro acc h
    rw [List.foldl_cons, specMean_zeroW b a color w hw reps n, h,
      if_neg (lt_irrefl 0)]
    exact ih acc h

/-- With an all-zero weight record the candidate fold of `mcts_optimize`
installs the seed (the first candidate, scoring `0 > -1e9`) and never
improves on it. -/
theorem mcts_core_zeroW (b : Board) (init : Int × Int) (color : Int)
    (w : Weights)
    (hw : w.FIVE = 0 ∧ w.FOUR = 0 ∧ w.BLOCKED_FOUR = 0 ∧ w.THREE = 0 ∧
      w.BLOCKED_THREE = 0 ∧ w.TWO = 0 ∧ w.BLOCKED_TWO = 0 ∧ w.ONE = 0)
    (iterations n : Int) : mcts_core b init color w iterations n = init := by
  unfold mcts_core mcts_candidates
  rw [List.foldl_cons, mcts_meanScore_zeroW b init color w hw iterations n,
    if_pos (by norm_num : (-(1000000000 : ℚ), init).1 < 0),
    mctsFoldlZero b color w hw iterations n _ (0, init) rfl]

/-- With an all-zero weight record the spec-side optimizer returns the
seed. -/
theorem optimizeSpec_zeroW (b : Board) (seed : Int × Int) (color : Int)
    (w : Weights)
    (hw : w.FIVE = 0 ∧ w.FOUR = 0 ∧ w.BLOCKED_FOUR = 0 ∧ w.THREE = 0 ∧
      w.BLOCKED_THREE = 0 ∧ w.TWO = 0 ∧ w.BLOCKED_TWO = 0 ∧ w.ONE = 0)
    (reps : Nat) (n : Int) : optimizeSpec b seed color w reps n = seed := by
  unfold optimizeSpec
  rw [specMean_zeroW b seed color w hw reps n,
    specFoldlZero b color w hw reps n _ (0, seed) rfl]

/-- Counterexample to C1 as stated: on the side-7 board `bC1` with a single
color-1 stone at `(4, 4)`, seed `(2, 2)`, weights `TWO = 10` (rest zero) and
one repetition, the neighbour `(3, 3)` is an enumerated candidate whose
mean caller-weighted score strictly exceeds the seed's, and the optimizer
described by the claim returns `(3, 3)` — yet `mcts_optimize` returns
`(2, 2)`: it does not score with the caller-supplied weights. -/
theorem c1_counterexample :
    (3, 3) ∈ mcts_candidates bC1 (2, 2) 7 ∧
    specMean bC1 (3, 3) 1 wTwo 1 7 > specMean bC1 (2, 2) 1 wTwo 1 7 ∧
    optimizeSpec bC1 (2, 2) 1 wTwo 1 7 = (3, 3) ∧
    mcts_optimize bC1 (2, 2) 1 0 1 7 = (2, 2) ∧
    mcts_optimize bC1 (2, 2) 1 0 1 7 ≠ (3, 3) := by
  refine ⟨by decide, by with_unfolding_all decide, by with_unfolding_all decide,
    by with_unfolding_all decide, by with_unfolding_all decide⟩

/-- C1 (amended): `mcts_optimize` enumerates the seed and its in-bounds
empty neighbours in the documented order and tracks a strict-improvement
running best over the mean of `repetitions` evaluations, but it scores with
an internal all-zero weight record (the function takes no weights
parameter), so it coincides with the spec-described procedure at zero
weights and always returns the seed. -/
theorem c1_amended_internal_zero_weights (b : Board) (seed : Int × Int)
    (c d reps n : Int)
    (hseed : 0 ≤ seed.1 ∧ seed.1 < n ∧ 0 ≤ seed.2 ∧ seed.2 < n)
    (hc : c = 1 ∨ c = 2) (hreps : 1 ≤ reps) :
    mcts_optimize b seed c d reps n =
        optimizeSpec b seed c Weights.zero reps.toNat n ∧
      mcts_optimize b seed c d reps n = seed := by
  have hwz : Weights.zero.FIVE = 0 ∧ Weights.zero.FOUR = 0 ∧
      Weights.zero.BLOCKED_FOUR = 0 ∧ Weights.zero.THREE = 0 ∧
      Weights.zero.BLOCKED_THREE = 0 ∧ Weights.zero.TWO = 0 ∧
      Weights.zero.BLOCKED_TWO = 0 ∧ Weights.zero.ONE = 0 :=
    ⟨rfl, rfl, rfl, rfl, rfl, rfl, rfl, rfl⟩
  constructor
  · rw [show mcts_optimize b seed c d reps n =
        mcts_core b seed c Weights.zero reps n from rfl,
      mcts_core_zeroW b seed c Weights.zero hwz reps n,
      optimizeSpec_zeroW b seed c Weights.zero hwz reps.toNat n]
  · exact mcts_core_zeroW b seed c Weights.zero hwz reps n

/-- Witness for the amended C1 at a concrete board, seed and repetition
count. -/
theorem c1_amended_internal_zero_weights_witness :
    mcts_optimize bC1 (2, 2) 1 0 1 7 =
        optimizeSpec bC1 (2, 2) 1 Weights.zero ((1 : Int).toNat) 7 ∧
      mcts_optimize bC1 (2, 2) 1 0 1 7 = (2, 2) :=
  c1_amended_internal_zero_weights bC1 (2, 2) 1 0 1 7 (by decide)
    (Or.inl rfl) (by decide)

/-- C9: if every field of the weight record is zero, the weight-indexed
candidate optimizer — both the code's core fold and the spec-described
procedure — returns exactly the seed position. -/
theorem c9_zero_weights_returns_seed (w : Weights)
    (hw : w.FIVE = 0 ∧ w.FOUR = 0 ∧ w.BLOCKED_FOUR = 0 ∧ w.THREE = 0 ∧
      w.BLOCKED_THREE = 0 ∧ w.TWO = 0 ∧ w.BLOCKED_TWO = 0 ∧ w.ONE = 0)
    (b : Board) (seed : Int × Int) (c reps n : Int)
    (hseed : 0 ≤ seed.1 ∧ seed.1 < n ∧ 0 ≤ seed.2 ∧ seed.2 < n)
    (hc : c = 1 ∨ c = 2) (hreps : 1 ≤ reps) :
    mcts_core b seed c w reps n = seed ∧
      optimizeSpec b seed c w reps.toNat n = seed :=
  ⟨mcts_core_zeroW b seed c w hw reps n,
   optimizeSpec_zeroW b seed c w hw reps.toNat n⟩

/-- Witness for C9 at a concrete all-zero record, board and seed. -/
theorem c9_zero_weights_returns_seed_witness :
    mcts_core bC1 (3, 3) 1 Weights.zero 2 7 = (3, 3) ∧
      optimizeSpec bC1 (3, 3) 1 Weights.zero ((2 : Int).toNat) 7 = (3, 3) :=
  c9_zero_weights_returns_seed Weights.zero
    ⟨rfl, rfl, rfl, rfl, rfl, rfl, rfl, rfl⟩ bC1 (3, 3) 1 2 7 (by decide)
    (Or.inl rfl) (by decide)

/-- C10: `mcts_optimize` scores every candidate with its internal all-zero
weight record, so every candidate's mean score is 0, the strict-improvement
update keeps the first candidate — the seed — and neither `depth` nor
`iterations` ever influences the returned position. -/
theorem c10_mcts_optimize_returns_init (b : Board) (seed : Int × Int)
    (c d reps n : Int)
    (hseed : 0 ≤ seed.1 ∧ seed.1 < n ∧ 0 ≤ seed.2 ∧ seed.2 < n)
    (hreps : 1 ≤ reps) :
    (∀ m ∈ mcts_candidates b seed n,
      mcts_meanScore b m c Weights.zero reps n = 0) ∧
    mcts_optimize b seed c d reps n = seed ∧
    (∀ d2 r2 : Int, 1 ≤ r2 →
      mcts_optimize b seed c d2 r2 n = mcts_optimize b seed c d reps n) := by
  have hwz : Weights.zero.FIVE = 0 ∧ Weights.zero.FOUR = 0 ∧
      Weights.zero.BLOCKED_FOUR = 0 ∧ Weights.zero.THREE = 0 ∧
      Weights.zero.BLOCKED_THREE = 0 ∧ Weights.zero.TWO = 0 ∧
      Weights.zero.BLOCKED_TWO = 0 ∧ Weights.zero.ONE = 0 :=
    ⟨rfl, rfl, rfl, rfl, rfl, rfl, rfl, rfl⟩
  refine ⟨fun m hm => mcts_meanScore_zeroW b m c Weights.zero hwz reps n,
    mcts_core_zeroW b seed c Weights.zero hwz reps n, fun d2 r2 h2 => ?_⟩
  rw [show mcts_optimize b seed c d2 r2 n =
        mcts_core b seed c Weights.zero r2 n from rfl,
    show mcts_optimize b seed c d reps n =
        mcts_core b seed c Weights.zero reps n from rfl,
    mcts_core_zeroW b seed c Weights.zero hwz r2 n,
    mcts_core_zeroW b seed c Weights.zero hwz reps n]

/-- Witness for C10 at a concrete board, seed, depth and iteration count. -/
theorem c10_mcts_optimize_returns_init_witness :
    (∀ m ∈ mcts_candidates bC1 (2, 2) 7,
      mcts_meanScore bC1 m 1 Weights.zero 3 7 = 0) ∧
    mcts_optimize bC1 (2, 2) 1 5 3 7 = (2, 2) ∧
    (∀ d2 r2 : Int, 1 ≤ r2 →
      mcts_optimize bC1 (2, 2) 1 d2 r2 7 = mcts_optimize bC1 (2, 2) 1 5 3 7) :=
  c10_mcts_optimize_returns_init bC1 (2, 2) 1 5 3 7 (by decide) (by decide)

end Gobang
